import Mathlib

/-!
Verification of the Beast HTTP serialization engine (`write.ipp`):
the synchronous `write` loop and the asynchronous `write_op` state machine,
embedded shallowly.  Body production is modelled as a script of produce
results; each engine is a total function from a message, a body-writer
script and a transport-error schedule to the log of observable events
(produce calls, transport writes, suspensions, completion).
-/

namespace BeastHttpWrite

/-- Byte strings are modelled as lists of characters. -/
abbrev Bytes := List Char

/-- Error codes carried in `error_code`.  `eof` models
`boost::asio::error::eof`, the value both engines assign when the
message's close flag is set (write.ipp lines 256-263 and 366-370). -/
inductive Err where
  | eof : Err
  | code (n : Nat) : Err
deriving DecidableEq, Repr

/-- One call of the Body Writer `wp.w(resume, ec, emit)` (the `Writer`
concept).  A call either invokes `emit` once with a slice of body bytes
and returns the tribool `true`/`false` (`emit bs done`), returns a
determinate tribool without invoking `emit` (`noEmit done`, outside the
Writer contract but expressible in C++), returns `indeterminate` without
invoking `emit` (`suspend`), or sets the error code (`fail e`). -/
inductive ProduceStep where
  | emit (bs : Bytes) (done : Bool) : ProduceStep
  | noEmit (done : Bool) : ProduceStep
  | suspend : ProduceStep
  | fail (e : Err) : ProduceStep
deriving DecidableEq, Repr

/-- Modelled from the spec: `write_preparation` (detail/write_preparation.h,
not under src/) supplies the serialized header bytes, the chunked-framing
decision, the close-after-write flag and, for content-length framing, the
declared content length (spec sections 3 and 6, "message preparer"). -/
structure Prep where
  header : Bytes
  chunked : Bool
  close : Bool
  contentLength : Nat
deriving DecidableEq, Repr

/-- Modelled from the spec: `chunk_encode` (chunk_encode.h, not under src/)
"prefixes the buffer sequence with its length in hexadecimal followed by
CRLF, and appends a trailing CRLF" (spec section 4.1). -/
def chunk_encode (b : Bytes) : Bytes :=
  Nat.toDigits 16 b.length ++ ('\r' :: '\n' :: []) ++ b ++ ('\r' :: '\n' :: [])

/-- Modelled from the spec: `chunk_encode_final` (chunk_encode.h, not under
src/) "returns the fixed sequence `0\r\n\r\n`" (spec section 4.1). -/
def chunk_encode_final : Bytes := '0' :: '\r' :: '\n' :: '\r' :: '\n' :: []

/-- Framing applied at the point buffers leave the coordinator: chunked
messages chunk-frame each slice, content-length messages pass it through
(write.ipp lines 175-183, 218-224, 306-311, 336-340). -/
def encIf (chunked : Bool) (b : Bytes) : Bytes :=
  if chunked then chunk_encode b else b

/-- Observable events of one message write. `prodE` records a Body Writer
produce call together with its result, `wrE` a transport write with the
payload handed to the transport and the transport's result, `finalWrE` the
dedicated final-chunk write, `suspE`/`resumeE` a suspension and the
matching resume-token invocation, `finishE` successful completion of the
protocol, and `handlerE` the completion handler invocation (for the
synchronous engine: the value left in `ec` on return). -/
inductive Event where
  | initE (r : Option Err) : Event
  | prodE (s : ProduceStep) : Event
  | wrE (payload : Bytes) (r : Option Err) : Event
  | finalWrE (r : Option Err) : Event
  | suspE : Event
  | resumeE : Event
  | finishE : Event
  | handlerE (ec : Option Err) : Event
deriving DecidableEq, Repr

/-- The error code delivered on successful completion: `eof` when the
close flag is set, success otherwise (write.ipp 256-263, 366-370). -/
def closeEc (p : Prep) : Option Err := if p.close then some Err.eof else none

/-- Tail of a successful synchronous write (write.ipp 355-371): write the
final chunk if chunked (propagating a transport error), then set `eof`
when the close flag is set. -/
def syncFinish (p : Prep) (tr : Nat → Option Err) (t : Nat) : List Event :=
  if p.chunked then
    match tr t with
    | some e => [.finalWrE (some e), .handlerE (some e)]
    | none => [.finalWrE none, .finishE, .handlerE (closeEc p)]
  else [.finishE, .handlerE (closeEc p)]

/-- Modes of the synchronous loop: `outer` is the top of the outer `for`
(write.ipp 299-328, emit coalesces the streambuf contents), `inner` the
body-only inner `for` (write.ipp 330-353). -/
inductive SMode where
  | outer : SMode
  | inner : SMode
deriving DecidableEq, Repr

/-- The synchronous engine (write.ipp 275-371) given a Body Writer script.
`sb` is the current streambuf content (the serialized header, until
consumed), `t` counts transport writes (indexing the transport-error
schedule `tr`).  A produce call pops the head of the script; a call after
the script is exhausted behaves as a writer that returns `true` without
emitting (`noEmit true`).  Faithful points: on `indeterminate` at the
outer top the streambuf is flushed standalone before blocking
(write.ipp 317-327); a Done result from the inner loop only breaks the
inner loop, so the outer loop issues one more produce call
(write.ipp 344-345 jump back to line 299). -/
def syncLoop (p : Prep) (tr : Nat → Option Err) :
    SMode → Bytes → List ProduceStep → Nat → List Event
  | .outer, _, [], t =>
      .prodE (.noEmit true) :: syncFinish p tr t
  | .outer, sb, s :: sc, t =>
      match s with
      | .fail e => [.prodE s, .handlerE (some e)]
      | .noEmit dn =>
          if dn then .prodE s :: syncFinish p tr t
          else .prodE s :: syncLoop p tr .inner [] sc t
      | .emit bs dn =>
          match tr t with
          | some e => [.prodE s, .wrE (sb ++ encIf p.chunked bs) (some e),
              .handlerE (some e)]
          | none =>
              if dn then
                .prodE s :: .wrE (sb ++ encIf p.chunked bs) none ::
                  syncFinish p tr (t + 1)
              else
                .prodE s :: .wrE (sb ++ encIf p.chunked bs) none ::
                  syncLoop p tr .inner [] sc (t + 1)
      | .suspend =>
          match tr t with
          | some e => [.prodE s, .wrE sb (some e), .handlerE (some e)]
          | none => .prodE s :: .wrE sb none :: .suspE :: .resumeE ::
              syncLoop p tr .inner [] sc (t + 1)
  | .inner, _, [], t =>
      .prodE (.noEmit true) :: .prodE (.noEmit true) :: syncFinish p tr t
  | .inner, _, s :: sc, t =>
      match s with
      | .fail e => [.prodE s, .handlerE (some e)]
      | .noEmit dn =>
          if dn then .prodE s :: syncLoop p tr .outer [] sc t
          else .prodE s :: syncLoop p tr .inner [] sc t
      | .emit bs dn =>
          match tr t with
          | some e => [.prodE s, .wrE (encIf p.chunked bs) (some e),
              .handlerE (some e)]
          | none =>
              if dn then
                .prodE s :: .wrE (encIf p.chunked bs) none ::
                  syncLoop p tr .outer [] sc (t + 1)
              else
                .prodE s :: .wrE (encIf p.chunked bs) none ::
                  syncLoop p tr .inner [] sc (t + 1)
      | .suspend =>
          .prodE s :: .suspE :: .resumeE :: syncLoop p tr .inner [] sc t

/-- The synchronous `write` (write.ipp 275-371): `init` first (an init
error returns before any transport write), then the nested write loops
starting with the streambuf holding the header bytes. -/
def syncRun (p : Prep) (ini : Option Err) (sc : List ProduceStep)
    (tr : Nat → Option Err) : List Event :=
  match ini with
  | some e => [.initE (some e), .handlerE (some e)]
  | none => .initE none :: syncLoop p tr .outer p.header sc 0

/-- Tail of the asynchronous state machine after the Body Writer reported
Done: state 4 writes the final chunk when chunked (write.ipp 245-254),
state 5 sets `eof` when the close flag is set and terminates
(write.ipp 256-263). -/
def asyncTail (p : Prep) (tr : Nat → Option Err) (t : Nat) : List Event :=
  if p.chunked then
    match tr t with
    | some e => [.finalWrE (some e), .handlerE (some e)]
    | none => [.finalWrE none, .finishE, .handlerE (closeEc p)]
  else [.finishE, .handlerE (closeEc p)]

/-- Modes of the asynchronous state machine `write_op::operator()`:
`hb` is state 1 (header and body, emit coalesces the streambuf,
write.ipp 169-204), `body` is the state 2/3 pair (streambuf consumed,
body only, write.ipp 207-243). -/
inductive AMode where
  | hb : AMode
  | body : AMode
deriving DecidableEq, Repr

/-- The asynchronous engine `write_op` (write.ipp 144-269).  Each
transport write completion or resume-token invocation re-enters the state
machine; the deterministic composition of those re-entries is modelled
directly.  Faithful points: on `indeterminate` the operation stores a
fresh resume token and returns without writing (write.ipp 193-198,
232-237), so the streambuf survives a state-1 suspension and the header
is still coalesced with the first body slice; a determinate Body Writer
result without an emitted buffer leaves the operation waiting for a
transport completion that was never initiated, so no further event occurs
(the operation hangs and the handler is never invoked). -/
def asyncLoop (p : Prep) (tr : Nat → Option Err) :
    AMode → Bytes → List ProduceStep → Nat → List Event
  | _, _, [], _ => [.prodE (.noEmit true)]
  | .hb, sb, s :: sc, t =>
      match s with
      | .fail e => [.prodE s, .handlerE (some e)]
      | .noEmit dn => [.prodE (.noEmit dn)]
      | .suspend => .prodE s :: .suspE :: .resumeE :: asyncLoop p tr .hb sb sc t
      | .emit bs dn =>
          match tr t with
          | some e => [.prodE s, .wrE (sb ++ encIf p.chunked bs) (some e),
              .handlerE (some e)]
          | none =>
              if dn then
                .prodE s :: .wrE (sb ++ encIf p.chunked bs) none ::
                  asyncTail p tr (t + 1)
              else
                .prodE s :: .wrE (sb ++ encIf p.chunked bs) none ::
                  asyncLoop p tr .body [] sc (t + 1)
  | .body, _, s :: sc, t =>
      match s with
      | .fail e => [.prodE s, .handlerE (some e)]
      | .noEmit dn => [.prodE (.noEmit dn)]
      | .suspend => .prodE s :: .suspE :: .resumeE ::
          asyncLoop p tr .body [] sc t
      | .emit bs dn =>
          match tr t with
          | some e => [.prodE s, .wrE (encIf p.chunked bs) (some e),
              .handlerE (some e)]
          | none =>
              if dn then
                .prodE s :: .wrE (encIf p.chunked bs) none ::
                  asyncTail p tr (t + 1)
              else
                .prodE s :: .wrE (encIf p.chunked bs) none ::
                  asyncLoop p tr .body [] sc (t + 1)

/-- The asynchronous `async_write` entry (write.ipp 373-391): the
constructor invokes the operation once, state 0 runs `init` (an init
error posts the handler with that error and no transport write occurs,
write.ipp 154-167), then state 1 with the streambuf holding the header. -/
def asyncRun (p : Prep) (ini : Option Err) (sc : List ProduceStep)
    (tr : Nat → Option Err) : List Event :=
  match ini with
  | some e => [.initE (some e), .handlerE (some e)]
  | none => .initE none :: asyncLoop p tr .hb p.header sc 0

/-- The always-succeeding transport schedule. -/
def trOk : Nat → Option Err := fun _ => none

/-- Payload a log event handed to the transport, if any. -/
def Event.wrPayload : Event → Option Bytes
  | .wrE b _ => some b
  | .finalWrE _ => some chunk_encode_final
  | _ => none

/-- The sequence of payloads passed to the transport's write operation. -/
def trace (log : List Event) : List Bytes := log.filterMap Event.wrPayload

/-- Body slice carried by a log event, if any. -/
def Event.sliceOf : Event → Option Bytes
  | .prodE (.emit bs _) => some bs
  | _ => none

/-- The body slices the Body Writer emitted during the write, in order. -/
def slices (log : List Event) : List Bytes := log.filterMap Event.sliceOf

/-- Completion-handler error code carried by a log event, if any. -/
def Event.handlerOf : Event → Option (Option Err)
  | .handlerE x => some x
  | _ => none

/-- The error codes delivered to the completion handler, in order. -/
def handlerEcs (log : List Event) : List (Option Err) :=
  log.filterMap Event.handlerOf

def Event.isSusp : Event → Bool
  | .suspE => true
  | _ => false

def Event.isResume : Event → Bool
  | .resumeE => true
  | _ => false

def Event.isHandler : Event → Bool
  | .handlerE _ => true
  | _ => false

def Event.isFinalWr : Event → Bool
  | .finalWrE _ => true
  | _ => false

def Event.isProd : Event → Bool
  | .prodE _ => true
  | _ => false

def Event.isFinish : Event → Bool
  | .finishE => true
  | _ => false

/-- Number of log events satisfying `f`. -/
def countIf (f : Event → Bool) (log : List Event) : Nat := (log.filter f).length

/-- Whether a produce result reports Done. -/
def ProduceStep.reportsDone : ProduceStep → Bool
  | .emit _ true => true
  | .noEmit true => true
  | _ => false

/-- Number of produce calls issued strictly after the first produce call
that reported Done. -/
def prodsAfterDone : List Event → Nat
  | [] => 0
  | .prodE s :: l => if s.reportsDone then countIf Event.isProd l
      else prodsAfterDone l
  | _ :: l => prodsAfterDone l

/-- Number of produce calls issued after the dedicated final-chunk write. -/
def prodsAfterFinal : List Event → Nat
  | [] => 0
  | .finalWrE _ :: l => countIf Event.isProd l
  | _ :: l => prodsAfterFinal l

/-- True when every final-chunk write is preceded by a produce call that
reported Done. -/
def donePrecedesFinal : List Event → Bool
  | [] => true
  | .prodE s :: l => if s.reportsDone then true else donePrecedesFinal l
  | .finalWrE _ :: _ => false
  | _ :: l => donePrecedesFinal l

/-- The error carried by a log event, if the event is the point where a
body-source, init or transport error was reported. -/
def Event.errOf : Event → Option Err
  | .initE (some e) => some e
  | .prodE (.fail e) => some e
  | .wrE _ (some e) => some e
  | .finalWrE (some e) => some e
  | _ => none

/-- True when, from the first error event on, the only remaining event is
a single handler invocation carrying exactly that error. -/
def errClean : List Event → Bool
  | [] => true
  | ev :: l =>
      match ev.errOf with
      | some e => l == [.handlerE (some e)]
      | none => errClean l

/-- The first body-source, init or transport error reported in the log. -/
def firstErr : List Event → Option Err
  | [] => none
  | ev :: l =>
      match ev.errOf with
      | some e => some e
      | none => firstErr l

/-- True when every suspension is immediately followed by the matching
resume-token invocation, with no transport write in between. -/
def suspAdjacent : List Event → Bool
  | [] => true
  | .suspE :: .resumeE :: l => suspAdjacent l
  | .suspE :: _ => false
  | _ :: l => suspAdjacent l

/-- A Body Writer script respecting the Writer contract of spec section 3:
`produce` emits a slice and reports NotDone, or suspends, repeatedly,
until it finally either emits a last slice and reports Done or reports an
error. -/
inductive WScript : List ProduceStep → Prop where
  | done (bs : Bytes) : WScript [.emit bs true]
  | failing (e : Err) : WScript [.fail e]
  | more (bs : Bytes) {sc : List ProduceStep} :
      WScript sc → WScript (.emit bs false :: sc)
  | pause {sc : List ProduceStep} :
      WScript sc → WScript (.suspend :: sc)

/-- An error-free conforming Body Writer script: slices and suspensions,
ending with a final slice reported Done. -/
inductive GoodTail : List ProduceStep → Prop where
  | done (bs : Bytes) : GoodTail [.emit bs true]
  | more (bs : Bytes) {sc : List ProduceStep} :
      GoodTail sc → GoodTail (.emit bs false :: sc)
  | pause {sc : List ProduceStep} :
      GoodTail sc → GoodTail (.suspend :: sc)

/-- The body slices a script emits, in order. -/
def emits : List ProduceStep → List Bytes
  | [] => []
  | .emit bs _ :: sc => bs :: emits sc
  | _ :: sc => emits sc

/-- Expected transport writes after the body proper: the final chunk for
chunked framing, nothing for content-length framing. -/
def tailWrites (p : Prep) : List Bytes :=
  if p.chunked then [chunk_encode_final] else []

/-- Expected body-only transport writes for a conforming script: one
framed write per emitted slice, then the final-chunk write if chunked. -/
def emitWrites (p : Prep) : List ProduceStep → List Bytes
  | .emit bs true :: _ => encIf p.chunked bs :: tailWrites p
  | .emit bs false :: sc => encIf p.chunked bs :: emitWrites p sc
  | .suspend :: sc => emitWrites p sc
  | _ => []

/-- The first slice a script emits. -/
def headSlice : List ProduceStep → Bytes
  | .emit bs _ :: _ => bs
  | .suspend :: sc => headSlice sc
  | _ => []

/-- Expected transport writes after the first data write (which carries
the header) for a conforming script. -/
def afterFirstWrites (p : Prep) : List ProduceStep → List Bytes
  | .emit _ true :: _ => tailWrites p
  | .emit _ false :: sc => emitWrites p sc
  | .suspend :: sc => afterFirstWrites p sc
  | _ => []

/-- Expected transport-write sequence of the synchronous engine on a
conforming script: when the Body Writer suspends before its first slice
the header is flushed standalone, otherwise it is coalesced with the
first framed slice. -/
def syncWrites (p : Prep) (sc : List ProduceStep) : List Bytes :=
  match sc with
  | .suspend :: sc' => p.header :: emitWrites p sc'
  | _ => (p.header ++ encIf p.chunked (headSlice sc)) :: afterFirstWrites p sc

/-- Bytes that close the body on the wire: the final chunk for chunked
framing, nothing for content-length framing. -/
def finishBytes (p : Prep) : Bytes :=
  if p.chunked then chunk_encode_final else []

@[simp] lemma trace_nil : trace [] = [] := rfl
@[simp] lemma trace_cons_init (r : Option Err) (l : List Event) :
    trace (.initE r :: l) = trace l := rfl
@[simp] lemma trace_cons_prod (s : ProduceStep) (l : List Event) :
    trace (.prodE s :: l) = trace l := rfl
@[simp] lemma trace_cons_wr (b : Bytes) (r : Option Err) (l : List Event) :
    trace (.wrE b r :: l) = b :: trace l := rfl
@[simp] lemma trace_cons_final (r : Option Err) (l : List Event) :
    trace (.finalWrE r :: l) = chunk_encode_final :: trace l := rfl
@[simp] lemma trace_cons_susp (l : List Event) :
    trace (.suspE :: l) = trace l := rfl
@[simp] lemma trace_cons_resume (l : List Event) :
    trace (.resumeE :: l) = trace l := rfl
@[simp] lemma trace_cons_finish (l : List Event) :
    trace (.finishE :: l) = trace l := rfl
@[simp] lemma trace_cons_handler (x : Option Err) (l : List Event) :
    trace (.handlerE x :: l) = trace l := rfl

@[simp] lemma handlerEcs_nil : handlerEcs [] = [] := rfl
@[simp] lemma handlerEcs_cons_init (r : Option Err) (l : List Event) :
    handlerEcs (.initE r :: l) = handlerEcs l := rfl
@[simp] lemma handlerEcs_cons_prod (s : ProduceStep) (l : List Event) :
    handlerEcs (.prodE s :: l) = handlerEcs l := rfl
@[simp] lemma handlerEcs_cons_wr (b : Bytes) (r : Option Err) (l : List Event) :
    handlerEcs (.wrE b r :: l) = handlerEcs l := rfl
@[simp] lemma handlerEcs_cons_final (r : Option Err) (l : List Event) :
    handlerEcs (.finalWrE r :: l) = handlerEcs l := rfl
@[simp] lemma handlerEcs_cons_susp (l : List Event) :
    handlerEcs (.suspE :: l) = handlerEcs l := rfl
@[simp] lemma handlerEcs_cons_resume (l : List Event) :
    handlerEcs (.resumeE :: l) = handlerEcs l := rfl
@[simp] lemma handlerEcs_cons_finish (l : List Event) :
    handlerEcs (.finishE :: l) = handlerEcs l := rfl
@[simp] lemma handlerEcs_cons_handler (x : Option Err) (l : List Event) :
    handlerEcs (.handlerE x :: l) = x :: handlerEcs l := rfl

@[simp] lemma countIf_nil (f : Event → Bool) : countIf f [] = 0 := rfl
@[simp] lemma countIf_cons (f : Event → Bool) (e : Event) (l : List Event) :
    countIf f (e :: l) = (if f e then 1 else 0) + countIf f l := by
  by_cases h : f e
  · simp only [countIf, List.filter_cons, h, if_true, List.length_cons]
    omega
  · simp [countIf, List.filter_cons, h]

/-- The transport writes of a successful synchronous epilogue. -/
lemma trace_syncFinish (p : Prep) (t : Nat) :
    trace (syncFinish p trOk t) = tailWrites p := by
  by_cases h : p.chunked <;> simp [syncFinish, trOk, tailWrites, h]

/-- The transport writes of a successful asynchronous epilogue. -/
lemma trace_asyncTail (p : Prep) (t : Nat) :
    trace (asyncTail p trOk t) = tailWrites p := by
  by_cases h : p.chunked <;> simp [asyncTail, trOk, tailWrites, h]

lemma handlerEcs_syncFinish (p : Prep) (t : Nat) :
    handlerEcs (syncFinish p trOk t) = [closeEc p] := by
  by_cases h : p.chunked <;> simp [syncFinish, trOk, h]

lemma handlerEcs_asyncTail (p : Prep) (t : Nat) :
    handlerEcs (asyncTail p trOk t) = [closeEc p] := by
  by_cases h : p.chunked <;> simp [asyncTail, trOk, h]

/-- Body-only writes of the synchronous inner loop on a conforming script
with an error-free transport. -/
lemma trace_syncLoop_inner (p : Prep) {sc : List ProduceStep}
    (hg : GoodTail sc) :
    ∀ sb t, trace (syncLoop p trOk .inner sb sc t) = emitWrites p sc := by
  induction hg with
  | done bs =>
      intro sb t
      simp [syncLoop, trOk, emitWrites, trace_syncFinish]
  | more bs hg ih =>
      intro sb t
      simp [syncLoop, trOk, emitWrites, ih]
  | pause hg ih =>
      intro sb t
      simp [syncLoop, emitWrites, ih]

/-- Body-only writes of the asynchronous body state on a conforming
script with an error-free transport. -/
lemma trace_asyncLoop_body (p : Prep) {sc : List ProduceStep}
    (hg : GoodTail sc) :
    ∀ sb t, trace (asyncLoop p trOk .body sb sc t) = emitWrites p sc := by
  induction hg with
  | done bs =>
      intro sb t
      simp [asyncLoop, trOk, emitWrites, trace_asyncTail]
  | more bs hg ih =>
      intro sb t
      simp [asyncLoop, trOk, emitWrites, ih]
  | pause hg ih =>
      intro sb t
      simp [asyncLoop, emitWrites, ih]

/-- Writes of the asynchronous header-and-body state: the pending header
bytes are coalesced with the first emitted slice, however many
suspensions precede it. -/
lemma trace_asyncLoop_hb (p : Prep) {sc : List ProduceStep}
    (hg : GoodTail sc) :
    ∀ sb t, trace (asyncLoop p trOk .hb sb sc t)
      = (sb ++ encIf p.chunked (headSlice sc)) :: afterFirstWrites p sc := by
  induction hg with
  | done bs =>
      intro sb t
      simp [asyncLoop, trOk, headSlice, afterFirstWrites, trace_asyncTail]
  | more bs hg ih =>
      intro sb t
      simp [asyncLoop, trOk, headSlice, afterFirstWrites,
        trace_asyncLoop_body p hg]
  | pause hg ih =>
      intro sb t
      simp [asyncLoop, headSlice, afterFirstWrites, ih]

/-- The transport-write sequence of a complete synchronous write on a
conforming script with an error-free transport. -/
lemma trace_syncRun (p : Prep) {sc : List ProduceStep} (hg : GoodTail sc) :
    trace (syncRun p none sc trOk) = syncWrites p sc := by
  cases hg with
  | done bs =>
      simp [syncRun, syncLoop, trOk, syncWrites, headSlice,
        afterFirstWrites, trace_syncFinish]
  | more bs hg =>
      simp [syncRun, syncLoop, trOk, syncWrites, headSlice,
        afterFirstWrites, trace_syncLoop_inner p hg]
  | pause hg =>
      simp [syncRun, syncLoop, trOk, syncWrites,
        trace_syncLoop_inner p hg]

/-- The transport-write sequence of a complete asynchronous write on a
conforming script with an error-free transport. -/
lemma trace_asyncRun (p : Prep) {sc : List ProduceStep} (hg : GoodTail sc) :
    trace (asyncRun p none sc trOk)
      = (p.header ++ encIf p.chunked (headSlice sc))
          :: afterFirstWrites p sc := by
  simp [asyncRun, trace_asyncLoop_hb p hg]

/-- Splitting off the coalesced first write recovers the body-only write
sequence. -/
lemma first_split (p : Prep) {sc : List ProduceStep} (hg : GoodTail sc) :
    encIf p.chunked (headSlice sc) :: afterFirstWrites p sc
      = emitWrites p sc := by
  induction hg with
  | done bs => simp [headSlice, afterFirstWrites, emitWrites]
  | more bs hg ih => simp [headSlice, afterFirstWrites, emitWrites]
  | pause hg ih => simpa [headSlice, afterFirstWrites, emitWrites] using ih

/-- Concatenating the body-only writes yields each emitted slice in its
framed form, then the body-closing bytes. -/
lemma emitWrites_join (p : Prep) {sc : List ProduceStep} (hg : GoodTail sc) :
    (emitWrites p sc).flatten
      = ((emits sc).map (encIf p.chunked)).flatten ++ finishBytes p := by
  induction hg with
  | done bs =>
      by_cases h : p.chunked <;>
        simp [emitWrites, emits, tailWrites, finishBytes, h]
  | more bs hg ih =>
      simp [emitWrites, emits, ih]
  | pause hg ih =>
      simpa [emitWrites, emits] using ih

@[simp] lemma encIf_true : encIf true = chunk_encode := by
  funext b; simp [encIf]

@[simp] lemma encIf_false : encIf false = fun b => b := by
  funext b; simp [encIf]

/-- Concatenating a write sequence whose first write coalesces a prefix
`h` with the first framed slice. -/
lemma coalesced_flatten (p : Prep) {sc : List ProduceStep}
    (hg : GoodTail sc) (h : Bytes) :
    ((h ++ encIf p.chunked (headSlice sc)) :: afterFirstWrites p sc).flatten
      = h ++ ((emits sc).map (encIf p.chunked)).flatten ++ finishBytes p := by
  calc ((h ++ encIf p.chunked (headSlice sc))
          :: afterFirstWrites p sc).flatten
      = h ++ (encIf p.chunked (headSlice sc)
          :: afterFirstWrites p sc).flatten := by
        simp [List.flatten_cons]
    _ = h ++ (emitWrites p sc).flatten := by rw [first_split p hg]
    _ = h ++ (((emits sc).map (encIf p.chunked)).flatten
          ++ finishBytes p) := by rw [emitWrites_join p hg]
    _ = _ := by rw [List.append_assoc]

/-- Concatenated transport output of a complete synchronous write. -/
lemma syncRun_flatten (p : Prep) {sc : List ProduceStep} (hg : GoodTail sc) :
    (trace (syncRun p none sc trOk)).flatten
      = p.header ++ ((emits sc).map (encIf p.chunked)).flatten
          ++ finishBytes p := by
  rw [trace_syncRun p hg]
  cases hg with
  | done bs => exact coalesced_flatten p (GoodTail.done bs) p.header
  | more bs hg' => exact coalesced_flatten p (GoodTail.more bs hg') p.header
  | pause hg' =>
      simp [syncWrites, emits, emitWrites_join p hg', List.flatten_cons]

/-- Concatenated transport output of a complete asynchronous write. -/
lemma asyncRun_flatten (p : Prep) {sc : List ProduceStep} (hg : GoodTail sc) :
    (trace (asyncRun p none sc trOk)).flatten
      = p.header ++ ((emits sc).map (encIf p.chunked)).flatten
          ++ finishBytes p := by
  rw [trace_asyncRun p hg]
  exact coalesced_flatten p hg p.header

/-- Handler codes of the synchronous inner loop on a conforming
error-free run. -/
lemma handlerEcs_syncLoop_inner (p : Prep) {sc : List ProduceStep}
    (hg : GoodTail sc) :
    ∀ sb t, handlerEcs (syncLoop p trOk .inner sb sc t) = [closeEc p] := by
  induction hg with
  | done bs => intro sb t; simp [syncLoop, trOk, handlerEcs_syncFinish]
  | more bs hg ih => intro sb t; simp [syncLoop, trOk, ih]
  | pause hg ih => intro sb t; simp [syncLoop, ih]

/-- Handler codes of a complete synchronous write on a conforming
error-free run. -/
lemma handlerEcs_syncRun (p : Prep) {sc : List ProduceStep}
    (hg : GoodTail sc) :
    handlerEcs (syncRun p none sc trOk) = [closeEc p] := by
  cases hg with
  | done bs => simp [syncRun, syncLoop, trOk, handlerEcs_syncFinish]
  | more bs hg' =>
      simp [syncRun, syncLoop, trOk, handlerEcs_syncLoop_inner p hg']
  | pause hg' =>
      simp [syncRun, syncLoop, trOk, handlerEcs_syncLoop_inner p hg']

/-- Handler codes of the asynchronous state machine on a conforming
error-free run, in either mode. -/
lemma handlerEcs_asyncLoop (p : Prep) {sc : List ProduceStep}
    (hg : GoodTail sc) :
    ∀ m sb t, handlerEcs (asyncLoop p trOk m sb sc t) = [closeEc p] := by
  induction hg with
  | done bs =>
      intro m sb t
      cases m <;> simp [asyncLoop, trOk, handlerEcs_asyncTail]
  | more bs hg ih =>
      intro m sb t
      cases m <;> simp [asyncLoop, trOk, ih]
  | pause hg ih =>
      intro m sb t
      cases m <;> simp [asyncLoop, ih]

/-- Handler codes of a complete asynchronous write on a conforming
error-free run. -/
lemma handlerEcs_asyncRun (p : Prep) {sc : List ProduceStep}
    (hg : GoodTail sc) :
    handlerEcs (asyncRun p none sc trOk) = [closeEc p] := by
  simp [asyncRun, handlerEcs_asyncLoop p hg]

/-- C1: for every chunked-framing message whose write completes without
error, the concatenation of all payloads passed to the transport's write
operation equals the serialized header bytes, followed by the chunk-framed
form of each body slice in the order the Body Writer emitted them,
followed by the final chunk bytes `0\r\n\r\n`, regardless of how many
times the Body Writer suspends — in both engines. -/
theorem c1_chunked_concat (p : Prep) (sc : List ProduceStep)
    (hg : GoodTail sc) (hch : p.chunked = true) :
    (trace (syncRun p none sc trOk)).flatten
        = p.header ++ ((emits sc).map chunk_encode).flatten
            ++ chunk_encode_final
      ∧ (trace (asyncRun p none sc trOk)).flatten
        = p.header ++ ((emits sc).map chunk_encode).flatten
            ++ chunk_encode_final := by
  have h1 := syncRun_flatten p hg
  have h2 := asyncRun_flatten p hg
  rw [hch] at h1 h2
  simpa [finishBytes, hch] using And.intro h1 h2

/-- C1 witness: the spec section 8 scenario — 17-byte header, body
chunks `hello` then `world` with a suspension in between. -/
theorem c1_chunked_concat_witness :
    (trace (syncRun ⟨"ABCDEFGHIJKLMNOPQ".data, true, false, 0⟩ none
        [.emit "hello".data false, .suspend, .emit "world".data true]
        trOk)).flatten
      = "ABCDEFGHIJKLMNOPQ".data
          ++ ((emits [.emit "hello".data false, .suspend,
                .emit "world".data true]).map chunk_encode).flatten
          ++ chunk_encode_final :=
  (c1_chunked_concat _ _
    (GoodTail.more _ (GoodTail.pause (GoodTail.done _))) rfl).1

/-- C5: for every content-length-framing message whose write completes
without error, the concatenation of all transport payloads equals the
header bytes followed by the raw concatenation of all body slices with no
framing added; when the message preparer declared a content length equal
to the Body Writer's total output, the body length on the wire equals the
declared content length — in both engines. -/
theorem c5_content_length (p : Prep) (sc : List ProduceStep)
    (hg : GoodTail sc) (hch : p.chunked = false)
    (hcl : (emits sc).flatten.length = p.contentLength) :
    ((trace (syncRun p none sc trOk)).flatten
        = p.header ++ (emits sc).flatten
      ∧ (trace (syncRun p none sc trOk)).flatten.length
        = p.header.length + p.contentLength)
    ∧ ((trace (asyncRun p none sc trOk)).flatten
        = p.header ++ (emits sc).flatten
      ∧ (trace (asyncRun p none sc trOk)).flatten.length
        = p.header.length + p.contentLength) := by
  have h1 := syncRun_flatten p hg
  have h2 := asyncRun_flatten p hg
  rw [hch] at h1 h2
  simp [finishBytes, hch] at h1 h2
  refine ⟨⟨h1, ?_⟩, h2, ?_⟩ <;>
    simp [h1, h2, List.length_append, hcl]

/-- C5 witness: two raw slices with a suspension, declared length 10. -/
theorem c5_content_length_witness :
    (trace (syncRun ⟨"HDR".data, false, false, 10⟩ none
        [.emit "hello".data false, .suspend, .emit "world".data true]
        trOk)).flatten.length = "HDR".data.length + 10 :=
  ((c5_content_length _ _
    (GoodTail.more _ (GoodTail.pause (GoodTail.done _))) rfl
    (by decide)).1).2

/-- C2 counterexample: when the Body Writer suspends before emitting its
first slice, the synchronous engine flushes the header as a standalone
transport write (write.ipp 317-327) while the asynchronous engine keeps
the header pending and coalesces it with the first body slice, so the two
payload sequences are not write-for-write identical. -/
theorem c2_counterexample :
    trace (syncRun ⟨"H".data, false, false, 0⟩ none
        [.suspend, .emit "hi".data true] trOk)
      ≠ trace (asyncRun ⟨"H".data, false, false, 0⟩ none
        [.suspend, .emit "hi".data true] trOk) := by decide

/-- C2 amended: for every message and every conforming (possibly
suspending) Body Writer, the synchronous and asynchronous engines produce
byte-identical concatenated transport output; the partitioning into
individual writes coincides except that the synchronous engine flushes
the header standalone when the Body Writer suspends before its first
slice. -/
theorem c2_amended (p : Prep) (sc : List ProduceStep) (hg : GoodTail sc) :
    (trace (syncRun p none sc trOk)).flatten
      = (trace (asyncRun p none sc trOk)).flatten := by
  rw [syncRun_flatten p hg, asyncRun_flatten p hg]

/-- C2 amended witness: the suspending scenario of the counterexample
still has byte-identical concatenated output. -/
theorem c2_amended_witness :
    (trace (syncRun ⟨"H".data, true, false, 0⟩ none
        [.suspend, .emit "hi".data true] trOk)).flatten
      = (trace (asyncRun ⟨"H".data, true, false, 0⟩ none
        [.suspend, .emit "hi".data true] trOk)).flatten :=
  c2_amended _ _ (GoodTail.pause (GoodTail.done _))

/-- C4 counterexample: in the synchronous engine a Body Writer that
suspends before its first slice causes the serialized header to be sent
as a standalone transport write carrying no body data (write.ipp
317-327), contradicting the claim that the header is only ever sent as a
prefix of the first write that also carries body data. -/
theorem c4_counterexample :
    trace (syncRun ⟨"PQ".data, true, false, 0⟩ none
        [.suspend, .emit "hi".data true] trOk)
      = ["PQ".data, chunk_encode "hi".data, chunk_encode_final] := by
  decide

/-- C4 amended: the serialized header bytes are written exactly once and
only in the first transport write.  In the asynchronous engine they are
always coalesced with the first emitted body slice; in the synchronous
engine likewise, except that when the Body Writer suspends before its
first slice the header is flushed as a standalone first write.  In both
engines no later write contains the header again. -/
theorem c4_amended (p : Prep) (sc : List ProduceStep) (hg : GoodTail sc) :
    trace (asyncRun p none sc trOk)
        = (p.header ++ encIf p.chunked (headSlice sc))
            :: afterFirstWrites p sc
      ∧ trace (syncRun p none sc trOk) = syncWrites p sc :=
  ⟨trace_asyncRun p hg, trace_syncRun p hg⟩

/-- C4 amended witness: a non-suspending first slice is coalesced with
the header in both engines. -/
theorem c4_amended_witness :
    trace (asyncRun ⟨"PQ".data, true, false, 0⟩ none
        [.emit "hi".data true] trOk)
      = ("PQ".data ++ encIf true (headSlice [.emit "hi".data true]))
          :: afterFirstWrites ⟨"PQ".data, true, false, 0⟩
              [.emit "hi".data true] :=
  (c4_amended _ _ (GoodTail.done _)).1

/-- C7: a `close_after = true` message that runs to completion without a
body or transport error completes with the distinguished end-of-stream
sentinel (`boost::asio::error::eof`), never with a plain success
indication — in both engines. -/
theorem c7_close_eof (p : Prep) (sc : List ProduceStep)
    (hg : GoodTail sc) (hc : p.close = true) :
    handlerEcs (syncRun p none sc trOk) = [some Err.eof]
  ∧ handlerEcs (asyncRun p none sc trOk) = [some Err.eof] := by
  have h1 := handlerEcs_syncRun p hg
  have h2 := handlerEcs_asyncRun p hg
  simp only [closeEc, hc, if_true] at h1 h2
  exact ⟨h1, h2⟩

/-- C7 witness: a close-after message with one suspension completes with
the end-of-stream sentinel in both engines. -/
theorem c7_close_eof_witness :
    handlerEcs (syncRun ⟨"H".data, true, true, 0⟩ none
        [.suspend, .emit "x".data true] trOk) = [some Err.eof]
  ∧ handlerEcs (asyncRun ⟨"H".data, true, true, 0⟩ none
        [.suspend, .emit "x".data true] trOk) = [some Err.eof] :=
  c7_close_eof _ _ (GoodTail.pause (GoodTail.done _)) rfl

@[simp] lemma errOf_initE (r : Option Err) : (Event.initE r).errOf = r := by
  cases r <;> rfl
@[simp] lemma errOf_prodE_emit (bs : Bytes) (dn : Bool) :
    (Event.prodE (.emit bs dn)).errOf = none := rfl
@[simp] lemma errOf_prodE_noEmit (dn : Bool) :
    (Event.prodE (.noEmit dn)).errOf = none := rfl
@[simp] lemma errOf_prodE_suspend :
    (Event.prodE .suspend).errOf = none := rfl
@[simp] lemma errOf_prodE_fail (e : Err) :
    (Event.prodE (.fail e)).errOf = some e := rfl
@[simp] lemma errOf_wrE (b : Bytes) (r : Option Err) :
    (Event.wrE b r).errOf = r := by cases r <;> rfl
@[simp] lemma errOf_finalWrE (r : Option Err) :
    (Event.finalWrE r).errOf = r := by cases r <;> rfl
@[simp] lemma errOf_suspE : Event.suspE.errOf = none := rfl
@[simp] lemma errOf_resumeE : Event.resumeE.errOf = none := rfl
@[simp] lemma errOf_finishE : Event.finishE.errOf = none := rfl
@[simp] lemma errOf_handlerE (x : Option Err) :
    (Event.handlerE x).errOf = none := rfl

lemma errClean_cons_none {ev : Event} (h : ev.errOf = none)
    (l : List Event) : errClean (ev :: l) = errClean l := by
  simp [errClean, h]

lemma errClean_cons_some {ev : Event} {e : Err} (h : ev.errOf = some e)
    (l : List Event) :
    errClean (ev :: l) = (l == [.handlerE (some e)]) := by
  simp [errClean, h]

lemma firstErr_cons_none {ev : Event} (h : ev.errOf = none)
    (l : List Event) : firstErr (ev :: l) = firstErr l := by
  simp [firstErr, h]

lemma firstErr_cons_some {ev : Event} {e : Err} (h : ev.errOf = some e)
    (l : List Event) : firstErr (ev :: l) = some e := by
  simp [firstErr, h]

@[simp] lemma prodsAfterFinal_nil : prodsAfterFinal [] = 0 := rfl
@[simp] lemma prodsAfterFinal_cons_init (r : Option Err) (l : List Event) :
    prodsAfterFinal (.initE r :: l) = prodsAfterFinal l := rfl
@[simp] lemma prodsAfterFinal_cons_prod (s : ProduceStep) (l : List Event) :
    prodsAfterFinal (.prodE s :: l) = prodsAfterFinal l := rfl
@[simp] lemma prodsAfterFinal_cons_wr (b : Bytes) (r : Option Err)
    (l : List Event) : prodsAfterFinal (.wrE b r :: l) = prodsAfterFinal l :=
  rfl
@[simp] lemma prodsAfterFinal_cons_final (r : Option Err) (l : List Event) :
    prodsAfterFinal (.finalWrE r :: l) = countIf Event.isProd l := rfl
@[simp] lemma prodsAfterFinal_cons_susp (l : List Event) :
    prodsAfterFinal (.suspE :: l) = prodsAfterFinal l := rfl
@[simp] lemma prodsAfterFinal_cons_resume (l : List Event) :
    prodsAfterFinal (.resumeE :: l) = prodsAfterFinal l := rfl
@[simp] lemma prodsAfterFinal_cons_finish (l : List Event) :
    prodsAfterFinal (.finishE :: l) = prodsAfterFinal l := rfl
@[simp] lemma prodsAfterFinal_cons_handler (x : Option Err)
    (l : List Event) : prodsAfterFinal (.handlerE x :: l) = prodsAfterFinal l :=
  rfl

@[simp] lemma donePrecedesFinal_nil : donePrecedesFinal [] = true := rfl
@[simp] lemma donePrecedesFinal_cons_init (r : Option Err) (l : List Event) :
    donePrecedesFinal (.initE r :: l) = donePrecedesFinal l := rfl
@[simp] lemma donePrecedesFinal_cons_prod (s : ProduceStep) (l : List Event) :
    donePrecedesFinal (.prodE s :: l)
      = if s.reportsDone then true else donePrecedesFinal l := rfl
@[simp] lemma donePrecedesFinal_cons_wr (b : Bytes) (r : Option Err)
    (l : List Event) :
    donePrecedesFinal (.wrE b r :: l) = donePrecedesFinal l := rfl
@[simp] lemma donePrecedesFinal_cons_final (r : Option Err)
    (l : List Event) : donePrecedesFinal (.finalWrE r :: l) = false := rfl
@[simp] lemma donePrecedesFinal_cons_susp (l : List Event) :
    donePrecedesFinal (.suspE :: l) = donePrecedesFinal l := rfl
@[simp] lemma donePrecedesFinal_cons_resume (l : List Event) :
    donePrecedesFinal (.resumeE :: l) = donePrecedesFinal l := rfl
@[simp] lemma donePrecedesFinal_cons_finish (l : List Event) :
    donePrecedesFinal (.finishE :: l) = donePrecedesFinal l := rfl
@[simp] lemma donePrecedesFinal_cons_handler (x : Option Err)
    (l : List Event) :
    donePrecedesFinal (.handlerE x :: l) = donePrecedesFinal l := rfl

@[simp] lemma suspAdjacent_nil : suspAdjacent [] = true := rfl
@[simp] lemma suspAdjacent_cons_init (r : Option Err) (l : List Event) :
    suspAdjacent (.initE r :: l) = suspAdjacent l := rfl
@[simp] lemma suspAdjacent_cons_prod (s : ProduceStep) (l : List Event) :
    suspAdjacent (.prodE s :: l) = suspAdjacent l := rfl
@[simp] lemma suspAdjacent_cons_wr (b : Bytes) (r : Option Err)
    (l : List Event) : suspAdjacent (.wrE b r :: l) = suspAdjacent l := rfl
@[simp] lemma suspAdjacent_cons_final (r : Option Err) (l : List Event) :
    suspAdjacent (.finalWrE r :: l) = suspAdjacent l := rfl
@[simp] lemma suspAdjacent_cons_susp_resume (l : List Event) :
    suspAdjacent (.suspE :: .resumeE :: l) = suspAdjacent l := rfl
@[simp] lemma suspAdjacent_cons_resume (l : List Event) :
    suspAdjacent (.resumeE :: l) = suspAdjacent l := rfl
@[simp] lemma suspAdjacent_cons_finish (l : List Event) :
    suspAdjacent (.finishE :: l) = suspAdjacent l := rfl
@[simp] lemma suspAdjacent_cons_handler (x : Option Err) (l : List Event) :
    suspAdjacent (.handlerE x :: l) = suspAdjacent l := rfl

/-- The asynchronous epilogue performs the same steps as the synchronous
one. -/
lemma asyncTail_eq_syncFinish (p : Prep) (tr : Nat → Option Err) (t : Nat) :
    asyncTail p tr t = syncFinish p tr t := rfl

/-- Error discipline of the write epilogue. -/
lemma syncFinish_groupA (p : Prep) (tr : Nat → Option Err) (t : Nat) :
    errClean (syncFinish p tr t) = true
  ∧ countIf Event.isHandler (syncFinish p tr t) = 1
  ∧ ∀ e, firstErr (syncFinish p tr t) = some e →
      handlerEcs (syncFinish p tr t) = [some e] := by
  by_cases h : p.chunked
  · cases htr : tr t with
    | some e =>
        refine ⟨?_, ?_, ?_⟩
        · simp [syncFinish, h, htr, errClean]
        · simp [syncFinish, h, htr, Event.isHandler]
        · intro e' he'
          simp [syncFinish, h, htr, firstErr] at he'
          simp [syncFinish, h, htr, he']
    | none =>
        refine ⟨?_, ?_, ?_⟩
        · simp [syncFinish, h, htr, errClean]
        · simp [syncFinish, h, htr, Event.isHandler]
        · intro e' he'
          simp [syncFinish, h, htr, firstErr] at he'
  · refine ⟨?_, ?_, ?_⟩
    · simp [syncFinish, h, errClean]
    · simp [syncFinish, h, Event.isHandler]
    · intro e' he'
      simp [syncFinish, h, firstErr] at he'

/-- Final-chunk discipline of the write epilogue. -/
lemma syncFinish_groupB (p : Prep) (tr : Nat → Option Err) (t : Nat) :
    (p.chunked = false → countIf Event.isFinalWr (syncFinish p tr t) = 0)
  ∧ countIf Event.isFinalWr (syncFinish p tr t) ≤ 1
  ∧ (p.chunked = true → countIf Event.isFinalWr (syncFinish p tr t) = 1)
  ∧ prodsAfterFinal (syncFinish p tr t) = 0 := by
  by_cases h : p.chunked
  · cases htr : tr t with
    | some e => simp [syncFinish, h, htr, Event.isFinalWr, Event.isProd]
    | none => simp [syncFinish, h, htr, Event.isFinalWr, Event.isProd]
  · simp [syncFinish, h, Event.isFinalWr]

/-- The write epilogue neither suspends nor resumes. -/
lemma syncFinish_groupC (p : Prep) (tr : Nat → Option Err) (t : Nat) :
    suspAdjacent (syncFinish p tr t) = true
  ∧ countIf Event.isResume (syncFinish p tr t) = 0
  ∧ countIf Event.isSusp (syncFinish p tr t) = 0 := by
  by_cases h : p.chunked
  · cases htr : tr t with
    | some e => simp [syncFinish, h, htr, Event.isResume, Event.isSusp]
    | none => simp [syncFinish, h, htr, Event.isResume, Event.isSusp]
  · simp [syncFinish, h, Event.isResume, Event.isSusp]

@[simp] lemma handlerOf_initE (r : Option Err) :
    (Event.initE r).handlerOf = none := rfl
@[simp] lemma handlerOf_prodE (s : ProduceStep) :
    (Event.prodE s).handlerOf = none := rfl
@[simp] lemma handlerOf_wrE (b : Bytes) (r : Option Err) :
    (Event.wrE b r).handlerOf = none := rfl
@[simp] lemma handlerOf_finalWrE (r : Option Err) :
    (Event.finalWrE r).handlerOf = none := rfl
@[simp] lemma handlerOf_suspE : Event.suspE.handlerOf = none := rfl
@[simp] lemma handlerOf_resumeE : Event.resumeE.handlerOf = none := rfl
@[simp] lemma handlerOf_finishE : Event.finishE.handlerOf = none := rfl
@[simp] lemma handlerOf_handlerE (x : Option Err) :
    (Event.handlerE x).handlerOf = some x := rfl

/-- Error well-formedness of a log: at the first error event the only
remaining event is one handler invocation carrying that error, and a
handler invocation before any error ends the log. -/
def errWf : List Event → Bool
  | [] => true
  | .handlerE _ :: l => l.isEmpty
  | ev :: l =>
      match ev.errOf with
      | some e => l == [.handlerE (some e)]
      | none => errWf l

lemma errWf_cons_none {ev : Event} (h : ev.errOf = none)
    (hh : ev.handlerOf = none) (l : List Event) :
    errWf (ev :: l) = errWf l := by
  cases ev <;> simp_all [errWf]

lemma errWf_cons_some {ev : Event} {e : Err} (h : ev.errOf = some e)
    (l : List Event) :
    errWf (ev :: l) = (l == [.handlerE (some e)]) := by
  cases ev <;> simp_all [errWf]

@[simp] lemma errWf_cons_handler (x : Option Err) (l : List Event) :
    errWf (.handlerE x :: l) = l.isEmpty := rfl

/-- An error-well-formed log is error-clean: from the first error event
on, only the single matching handler invocation remains. -/
lemma errClean_of_errWf :
    ∀ {log : List Event}, errWf log = true → errClean log = true := by
  intro log
  induction log with
  | nil => simp [errClean]
  | cons ev l ih =>
      intro h
      cases hk : ev.errOf with
      | some e =>
          rw [errWf_cons_some hk] at h
          rw [errClean_cons_some hk]
          exact h
      | none =>
          cases hh : ev.handlerOf with
          | some x =>
              have hev : ev = .handlerE x := by
                cases ev <;> simp_all
              subst hev
              simp only [errWf_cons_handler] at h
              rw [List.isEmpty_iff] at h
              subst h
              simp [errClean]
          | none =>
              rw [errWf_cons_none hk hh] at h
              rw [errClean_cons_none hk]
              exact ih h

/-- In an error-well-formed log, a reported error is delivered to the
handler unchanged and is the only handler invocation. -/
lemma handlerEcs_of_errWf :
    ∀ {log : List Event} {e : Err}, errWf log = true →
      firstErr log = some e → handlerEcs log = [some e] := by
  intro log
  induction log with
  | nil => intro e _ hf; simp [firstErr] at hf
  | cons ev l ih =>
      intro e h hf
      cases hk : ev.errOf with
      | some e' =>
          rw [firstErr_cons_some hk] at hf
          rw [errWf_cons_some hk] at h
          have hl : l = [.handlerE (some e')] := by
            exact eq_of_beq h
          obtain rfl : e' = e := by simpa using hf
          have hhe : ev.handlerOf = none := by
            cases ev <;> simp_all
          cases ev <;> simp_all [hl]
      | none =>
          rw [firstErr_cons_none hk] at hf
          cases hh : ev.handlerOf with
          | some x =>
              have hev : ev = .handlerE x := by
                cases ev <;> simp_all
              subst hev
              simp only [errWf_cons_handler] at h
              rw [List.isEmpty_iff] at h
              subst h
              simp [firstErr] at hf
          | none =>
              rw [errWf_cons_none hk hh] at h
              have := ih h hf
              cases ev <;> simp_all

/-- The write epilogue is error-well-formed. -/
lemma syncFinish_errWf (p : Prep) (tr : Nat → Option Err) (t : Nat) :
    errWf (syncFinish p tr t) = true := by
  by_cases h : p.chunked
  · cases htr : tr t with
    | some e => simp [syncFinish, h, htr, errWf_cons_some]
    | none => simp [syncFinish, h, htr, errWf_cons_none]
  · simp [syncFinish, h, errWf_cons_none]

/-- The write epilogue invokes the handler exactly once. -/
lemma syncFinish_handler1 (p : Prep) (tr : Nat → Option Err) (t : Nat) :
    countIf Event.isHandler (syncFinish p tr t) = 1 :=
  (syncFinish_groupA p tr t).2.1

/-- The asynchronous epilogue is error-well-formed. -/
lemma asyncTail_errWf (p : Prep) (tr : Nat → Option Err) (t : Nat) :
    errWf (asyncTail p tr t) = true := by
  rw [asyncTail_eq_syncFinish]; exact syncFinish_errWf p tr t

/-- The asynchronous epilogue invokes the handler exactly once. -/
lemma asyncTail_handler1 (p : Prep) (tr : Nat → Option Err) (t : Nat) :
    countIf Event.isHandler (asyncTail p tr t) = 1 := by
  rw [asyncTail_eq_syncFinish]; exact syncFinish_handler1 p tr t

lemma asyncTail_suspAdj (p : Prep) (tr : Nat → Option Err) (t : Nat) :
    suspAdjacent (asyncTail p tr t) = true := by
  rw [asyncTail_eq_syncFinish]; exact (syncFinish_groupC p tr t).1

lemma asyncTail_resume0 (p : Prep) (tr : Nat → Option Err) (t : Nat) :
    countIf Event.isResume (asyncTail p tr t) = 0 := by
  rw [asyncTail_eq_syncFinish]; exact (syncFinish_groupC p tr t).2.1

lemma asyncTail_susp0 (p : Prep) (tr : Nat → Option Err) (t : Nat) :
    countIf Event.isSusp (asyncTail p tr t) = 0 := by
  rw [asyncTail_eq_syncFinish]; exact (syncFinish_groupC p tr t).2.2

/-- The synchronous loop is error-well-formed and invokes the handler
exactly once, for every script, transport schedule and starting state. -/
lemma syncLoop_wf (p : Prep) (tr : Nat → Option Err) :
    ∀ (sc : List ProduceStep) (m : SMode) (sb : Bytes) (t : Nat),
      errWf (syncLoop p tr m sb sc t) = true
    ∧ countIf Event.isHandler (syncLoop p tr m sb sc t) = 1 := by
  intro sc
  induction sc with
  | nil =>
      intro m sb t
      cases m <;>
        simp [syncLoop, errWf_cons_none, syncFinish_errWf,
          syncFinish_handler1, Event.isHandler]
  | cons s sc ih =>
      have ihW : ∀ m sb t, errWf (syncLoop p tr m sb sc t) = true :=
        fun m sb t => (ih m sb t).1
      have ihH : ∀ m sb t,
          countIf Event.isHandler (syncLoop p tr m sb sc t) = 1 :=
        fun m sb t => (ih m sb t).2
      intro m sb t
      cases m with
      | outer =>
          cases s with
          | fail e =>
              simp [syncLoop, errWf_cons_some, Event.isHandler]
          | noEmit dn =>
              cases dn <;>
                simp [syncLoop, errWf_cons_none, syncFinish_errWf,
                  syncFinish_handler1, ihW, ihH, Event.isHandler]
          | suspend =>
              cases htr : tr t with
              | some e =>
                  simp [syncLoop, htr, errWf_cons_none, errWf_cons_some,
                    Event.isHandler]
              | none =>
                  simp [syncLoop, htr, errWf_cons_none, ihW, ihH,
                    Event.isHandler]
          | emit bs dn =>
              cases htr : tr t with
              | some e =>
                  simp [syncLoop, htr, errWf_cons_none, errWf_cons_some,
                    Event.isHandler]
              | none =>
                  cases dn <;>
                    simp [syncLoop, htr, errWf_cons_none, syncFinish_errWf,
                      syncFinish_handler1, ihW, ihH, Event.isHandler]
      | inner =>
          cases s with
          | fail e =>
              simp [syncLoop, errWf_cons_some, Event.isHandler]
          | noEmit dn =>
              cases dn <;>
                simp [syncLoop, errWf_cons_none, ihW, ihH, Event.isHandler]
          | suspend =>
              simp [syncLoop, errWf_cons_none, ihW, ihH, Event.isHandler]
          | emit bs dn =>
              cases htr : tr t with
              | some e =>
                  simp [syncLoop, htr, errWf_cons_none, errWf_cons_some,
                    Event.isHandler]
              | none =>
                  cases dn <;>
                    simp [syncLoop, htr, errWf_cons_none, ihW, ihH,
                      Event.isHandler]

/-- The asynchronous state machine's log is error-well-formed for every
script, transport schedule and starting state. -/
lemma asyncLoop_errWf (p : Prep) (tr : Nat → Option Err) :
    ∀ (sc : List ProduceStep) (m : AMode) (sb : Bytes) (t : Nat),
      errWf (asyncLoop p tr m sb sc t) = true := by
  intro sc
  induction sc with
  | nil =>
      intro m sb t
      cases m <;> simp [asyncLoop, errWf_cons_none, errWf]
  | cons s sc ih =>
      intro m sb t
      cases m with
      | hb =>
          cases s with
          | fail e => simp [asyncLoop, errWf_cons_some]
          | noEmit dn => simp [asyncLoop, errWf_cons_none, errWf]
          | suspend => simp [asyncLoop, errWf_cons_none, ih]
          | emit bs dn =>
              cases htr : tr t with
              | some e =>
                  simp [asyncLoop, htr, errWf_cons_none, errWf_cons_some]
              | none =>
                  cases dn <;>
                    simp [asyncLoop, htr, errWf_cons_none, asyncTail_errWf,
                      ih]
      | body =>
          cases s with
          | fail e => simp [asyncLoop, errWf_cons_some]
          | noEmit dn => simp [asyncLoop, errWf_cons_none, errWf]
          | suspend => simp [asyncLoop, errWf_cons_none, ih]
          | emit bs dn =>
              cases htr : tr t with
              | some e =>
                  simp [asyncLoop, htr, errWf_cons_none, errWf_cons_some]
              | none =>
                  cases dn <;>
                    simp [asyncLoop, htr, errWf_cons_none, asyncTail_errWf,
                      ih]

/-- On a contract-respecting script the asynchronous state machine
invokes its completion handler exactly once. -/
lemma asyncLoop_handler1 (p : Prep) (tr : Nat → Option Err) :
    ∀ {sc : List ProduceStep}, WScript sc →
      ∀ (m : AMode) (sb : Bytes) (t : Nat),
        countIf Event.isHandler (asyncLoop p tr m sb sc t) = 1 := by
  intro sc hw
  induction hw with
  | done bs =>
      intro m sb t
      cases m <;> cases htr : tr t <;>
        simp [asyncLoop, htr, asyncTail_handler1, Event.isHandler]
  | failing e =>
      intro m sb t
      cases m <;> simp [asyncLoop, Event.isHandler]
  | more bs hw ih =>
      intro m sb t
      cases m <;> cases htr : tr t <;>
        simp [asyncLoop, htr, Event.isHandler, ih]
  | pause hw ih =>
      intro m sb t
      cases m <;> simp [asyncLoop, Event.isHandler, ih]

/-- Every suspension of the asynchronous state machine is immediately
followed by its matching resume-token re-entry, and re-entries by resume
token match suspensions one for one. -/
lemma asyncLoop_susp (p : Prep) (tr : Nat → Option Err) :
    ∀ (sc : List ProduceStep) (m : AMode) (sb : Bytes) (t : Nat),
      suspAdjacent (asyncLoop p tr m sb sc t) = true
    ∧ countIf Event.isResume (asyncLoop p tr m sb sc t)
        = countIf Event.isSusp (asyncLoop p tr m sb sc t) := by
  intro sc
  induction sc with
  | nil =>
      intro m sb t
      cases m <;> simp [asyncLoop, Event.isResume, Event.isSusp]
  | cons s sc ih =>
      have ihA : ∀ m sb t,
          suspAdjacent (asyncLoop p tr m sb sc t) = true :=
        fun m sb t => (ih m sb t).1
      have ihC : ∀ m sb t,
          countIf Event.isResume (asyncLoop p tr m sb sc t)
            = countIf Event.isSusp (asyncLoop p tr m sb sc t) :=
        fun m sb t => (ih m sb t).2
      intro m sb t
      cases m with
      | hb =>
          cases s with
          | fail e => simp [asyncLoop, Event.isResume, Event.isSusp]
          | noEmit dn => simp [asyncLoop, Event.isResume, Event.isSusp]
          | suspend =>
              simp [asyncLoop, Event.isResume, Event.isSusp, ihA, ihC]
          | emit bs dn =>
              cases htr : tr t with
              | some e =>
                  simp [asyncLoop, htr, Event.isResume, Event.isSusp]
              | none =>
                  cases dn <;>
                    simp [asyncLoop, htr, Event.isResume, Event.isSusp,
                      ihA, ihC, asyncTail_suspAdj, asyncTail_resume0,
                      asyncTail_susp0]
      | body =>
          cases s with
          | fail e => simp [asyncLoop, Event.isResume, Event.isSusp]
          | noEmit dn => simp [asyncLoop, Event.isResume, Event.isSusp]
          | suspend =>
              simp [asyncLoop, Event.isResume, Event.isSusp, ihA, ihC]
          | emit bs dn =>
              cases htr : tr t with
              | some e =>
                  simp [asyncLoop, htr, Event.isResume, Event.isSusp]
              | none =>
                  cases dn <;>
                    simp [asyncLoop, htr, Event.isResume, Event.isSusp,
                      ihA, ihC, asyncTail_suspAdj, asyncTail_resume0,
                      asyncTail_susp0]

@[simp] lemma reportsDone_emit (bs : Bytes) (dn : Bool) :
    (ProduceStep.emit bs dn).reportsDone = dn := by cases dn <;> rfl
@[simp] lemma reportsDone_noEmit (dn : Bool) :
    (ProduceStep.noEmit dn).reportsDone = dn := by cases dn <;> rfl
@[simp] lemma reportsDone_suspend :
    ProduceStep.suspend.reportsDone = false := rfl
@[simp] lemma reportsDone_fail (e : Err) :
    (ProduceStep.fail e).reportsDone = false := rfl

/-- The epilogue issues the final-chunk write exactly when the message is
chunked. -/
lemma syncFinish_finalCount (p : Prep) (tr : Nat → Option Err) (t : Nat) :
    countIf Event.isFinalWr (syncFinish p tr t)
      = if p.chunked then 1 else 0 := by
  by_cases h : p.chunked
  · cases htr : tr t with
    | some e => simp [syncFinish, h, htr, Event.isFinalWr]
    | none => simp [syncFinish, h, htr, Event.isFinalWr]
  · simp [syncFinish, h, Event.isFinalWr]

/-- The epilogue reports successful completion at most once, and only
together with its final-chunk write when chunked. -/
lemma syncFinish_finishCount (p : Prep) (tr : Nat → Option Err) (t : Nat) :
    countIf Event.isFinish (syncFinish p tr t) ≤ 1
  ∧ countIf Event.isFinish (syncFinish p tr t)
      ≤ countIf Event.isFinalWr (syncFinish p tr t)
        + (if p.chunked then 0 else 1) := by
  by_cases h : p.chunked
  · cases htr : tr t with
    | some e => simp [syncFinish, h, htr, Event.isFinish, Event.isFinalWr]
    | none => simp [syncFinish, h, htr, Event.isFinish, Event.isFinalWr]
  · simp [syncFinish, h, Event.isFinish, Event.isFinalWr]

/-- Final-chunk discipline of the synchronous loop: at most one dedicated
final-chunk write, every final-chunk write preceded by a Done-reporting
produce call, and no produce call after the final-chunk write. -/
lemma syncLoop_final (p : Prep) (tr : Nat → Option Err) :
    ∀ (sc : List ProduceStep) (m : SMode) (sb : Bytes) (t : Nat),
      countIf Event.isFinalWr (syncLoop p tr m sb sc t) ≤ 1
    ∧ donePrecedesFinal (syncLoop p tr m sb sc t) = true
    ∧ prodsAfterFinal (syncLoop p tr m sb sc t) = 0 := by
  intro sc
  induction sc with
  | nil =>
      intro m sb t
      have h1 := syncFinish_finalCount p tr t
      have h2 := (syncFinish_groupB p tr t).2.2.2
      cases m <;> (refine ⟨?_, ?_, ?_⟩ <;>
        (simp [syncLoop, Event.isFinalWr, h1, h2]; try (split <;> simp)))
  | cons s sc ih =>
      have ihA : ∀ m sb t,
          countIf Event.isFinalWr (syncLoop p tr m sb sc t) ≤ 1 :=
        fun m sb t => (ih m sb t).1
      have ihB : ∀ m sb t,
          donePrecedesFinal (syncLoop p tr m sb sc t) = true :=
        fun m sb t => (ih m sb t).2.1
      have ihC : ∀ m sb t,
          prodsAfterFinal (syncLoop p tr m sb sc t) = 0 :=
        fun m sb t => (ih m sb t).2.2
      intro m sb t
      have h1 := fun u => syncFinish_finalCount p tr u
      have h2 := fun u => (syncFinish_groupB p tr u).2.2.2
      cases m with
      | outer =>
          cases s with
          | fail e => simp [syncLoop, Event.isFinalWr]
          | noEmit dn =>
              cases dn <;> (refine ⟨?_, ?_, ?_⟩ <;>
                simp [syncLoop, Event.isFinalWr, h1, h2, ihA, ihB, ihC] <;>
                  split <;> simp)
          | suspend =>
              cases htr : tr t with
              | some e => simp [syncLoop, htr, Event.isFinalWr]
              | none =>
                  simp [syncLoop, htr, Event.isFinalWr, ihA, ihB, ihC]
          | emit bs dn =>
              cases htr : tr t with
              | some e =>
                  cases dn <;> simp [syncLoop, htr, Event.isFinalWr]
              | none =>
                  cases dn <;> (refine ⟨?_, ?_, ?_⟩ <;>
                    simp [syncLoop, htr, Event.isFinalWr, h1, h2, ihA, ihB,
                      ihC] <;> split <;> simp)
      | inner =>
          cases s with
          | fail e => simp [syncLoop, Event.isFinalWr]
          | noEmit dn =>
              cases dn <;> simp [syncLoop, Event.isFinalWr, ihA, ihB, ihC]
          | suspend =>
              simp [syncLoop, Event.isFinalWr, ihA, ihB, ihC]
          | emit bs dn =>
              cases htr : tr t with
              | some e =>
                  cases dn <;> simp [syncLoop, htr, Event.isFinalWr]
              | none =>
                  cases dn <;>
                    simp [syncLoop, htr, Event.isFinalWr, ihA, ihB, ihC]

/-- A content-length message never gets a final-chunk write from the
synchronous loop. -/
lemma syncLoop_final_cl (p : Prep) (tr : Nat → Option Err)
    (hch : p.chunked = false) :
    ∀ (sc : List ProduceStep) (m : SMode) (sb : Bytes) (t : Nat),
      countIf Event.isFinalWr (syncLoop p tr m sb sc t) = 0 := by
  have hF : ∀ u, countIf Event.isFinalWr (syncFinish p tr u) = 0 := by
    intro u; rw [syncFinish_finalCount, hch]; simp
  intro sc
  induction sc with
  | nil => intro m sb t; cases m <;> simp [syncLoop, Event.isFinalWr, hF]
  | cons s sc ih =>
      intro m sb t
      cases m with
      | outer =>
          cases s with
          | fail e => simp [syncLoop, Event.isFinalWr]
          | noEmit dn =>
              cases dn <;> simp [syncLoop, Event.isFinalWr, hF, ih]
          | suspend =>
              cases htr : tr t with
              | some e => simp [syncLoop, htr, Event.isFinalWr]
              | none => simp [syncLoop, htr, Event.isFinalWr, ih]
          | emit bs dn =>
              cases htr : tr t with
              | some e => simp [syncLoop, htr, Event.isFinalWr]
              | none =>
                  cases dn <;> simp [syncLoop, htr, Event.isFinalWr, hF, ih]
      | inner =>
          cases s with
          | fail e => simp [syncLoop, Event.isFinalWr]
          | noEmit dn =>
              cases dn <;> simp [syncLoop, Event.isFinalWr, ih]
          | suspend => simp [syncLoop, Event.isFinalWr, ih]
          | emit bs dn =>
              cases htr : tr t with
              | some e => simp [syncLoop, htr, Event.isFinalWr]
              | none =>
                  cases dn <;> simp [syncLoop, htr, Event.isFinalWr, hF, ih]

/-- On a chunked message, the synchronous loop reports successful
completion only together with a final-chunk write. -/
lemma syncLoop_finish_le (p : Prep) (tr : Nat → Option Err)
    (hch : p.chunked = true) :
    ∀ (sc : List ProduceStep) (m : SMode) (sb : Bytes) (t : Nat),
      countIf Event.isFinish (syncLoop p tr m sb sc t)
        ≤ countIf Event.isFinalWr (syncLoop p tr m sb sc t) := by
  have hF : ∀ u, countIf Event.isFinish (syncFinish p tr u)
      ≤ countIf Event.isFinalWr (syncFinish p tr u) := by
    intro u
    have h := (syncFinish_finishCount p tr u).2
    rw [hch] at h
    simpa using h
  intro sc
  induction sc with
  | nil => intro m sb t; cases m <;> simpa [syncLoop, Event.isFinish,
      Event.isFinalWr] using hF t
  | cons s sc ih =>
      intro m sb t
      cases m with
      | outer =>
          cases s with
          | fail e => simp [syncLoop, Event.isFinish, Event.isFinalWr]
          | noEmit dn =>
              cases dn
              · simpa [syncLoop, Event.isFinish, Event.isFinalWr] using
                  ih .inner [] t
              · simpa [syncLoop, Event.isFinish, Event.isFinalWr] using hF t
          | suspend =>
              cases htr : tr t with
              | some e => simp [syncLoop, htr, Event.isFinish, Event.isFinalWr]
              | none =>
                  simpa [syncLoop, htr, Event.isFinish, Event.isFinalWr]
                    using ih .inner [] (t + 1)
          | emit bs dn =>
              cases htr : tr t with
              | some e => simp [syncLoop, htr, Event.isFinish, Event.isFinalWr]
              | none =>
                  cases dn
                  · simpa [syncLoop, htr, Event.isFinish, Event.isFinalWr]
                      using ih .inner [] (t + 1)
                  · simpa [syncLoop, htr, Event.isFinish, Event.isFinalWr]
                      using hF (t + 1)
      | inner =>
          cases s with
          | fail e => simp [syncLoop, Event.isFinish, Event.isFinalWr]
          | noEmit dn =>
              cases dn
              · simpa [syncLoop, Event.isFinish, Event.isFinalWr] using
                  ih .inner [] t
              · simpa [syncLoop, Event.isFinish, Event.isFinalWr] using
                  ih .outer [] t
          | suspend =>
              simpa [syncLoop, Event.isFinish, Event.isFinalWr] using
                ih .inner [] t
          | emit bs dn =>
              cases htr : tr t with
              | some e => simp [syncLoop, htr, Event.isFinish, Event.isFinalWr]
              | none =>
                  cases dn
                  · simpa [syncLoop, htr, Event.isFinish, Event.isFinalWr]
                      using ih .inner [] (t + 1)
                  · simpa [syncLoop, htr, Event.isFinish, Event.isFinalWr]
                      using ih .outer [] (t + 1)

/-- Final-chunk discipline of the asynchronous state machine. -/
lemma asyncLoop_final (p : Prep) (tr : Nat → Option Err) :
    ∀ (sc : List ProduceStep) (m : AMode) (sb : Bytes) (t : Nat),
      countIf Event.isFinalWr (asyncLoop p tr m sb sc t) ≤ 1
    ∧ donePrecedesFinal (asyncLoop p tr m sb sc t) = true
    ∧ prodsAfterFinal (asyncLoop p tr m sb sc t) = 0 := by
  have h1 : ∀ u, countIf Event.isFinalWr (asyncTail p tr u) ≤ 1 := by
    intro u
    rw [asyncTail_eq_syncFinish, syncFinish_finalCount]
    split <;> simp
  have h2 : ∀ u, prodsAfterFinal (asyncTail p tr u) = 0 := by
    intro u
    rw [asyncTail_eq_syncFinish]
    exact (syncFinish_groupB p tr u).2.2.2
  intro sc
  induction sc with
  | nil =>
      intro m sb t
      cases m <;> simp [asyncLoop, Event.isFinalWr]
  | cons s sc ih =>
      have ihA : ∀ m sb t,
          countIf Event.isFinalWr (asyncLoop p tr m sb sc t) ≤ 1 :=
        fun m sb t => (ih m sb t).1
      have ihB : ∀ m sb t,
          donePrecedesFinal (asyncLoop p tr m sb sc t) = true :=
        fun m sb t => (ih m sb t).2.1
      have ihC : ∀ m sb t,
          prodsAfterFinal (asyncLoop p tr m sb sc t) = 0 :=
        fun m sb t => (ih m sb t).2.2
      intro m sb t
      cases m with
      | hb =>
          cases s with
          | fail e => simp [asyncLoop, Event.isFinalWr]
          | noEmit dn => simp [asyncLoop, Event.isFinalWr]
          | suspend => simp [asyncLoop, Event.isFinalWr, ihA, ihB, ihC]
          | emit bs dn =>
              cases htr : tr t with
              | some e => cases dn <;> simp [asyncLoop, htr, Event.isFinalWr]
              | none =>
                  cases dn <;> (refine ⟨?_, ?_, ?_⟩ <;>
                    simp [asyncLoop, htr, Event.isFinalWr, h1, h2, ihA, ihB,
                      ihC])
      | body =>
          cases s with
          | fail e => simp [asyncLoop, Event.isFinalWr]
          | noEmit dn => simp [asyncLoop, Event.isFinalWr]
          | suspend => simp [asyncLoop, Event.isFinalWr, ihA, ihB, ihC]
          | emit bs dn =>
              cases htr : tr t with
              | some e => cases dn <;> simp [asyncLoop, htr, Event.isFinalWr]
              | none =>
                  cases dn <;> (refine ⟨?_, ?_, ?_⟩ <;>
                    simp [asyncLoop, htr, Event.isFinalWr, h1, h2, ihA, ihB,
                      ihC])

/-- A content-length message never gets a final-chunk write from the
asynchronous state machine. -/
lemma asyncLoop_final_cl (p : Prep) (tr : Nat → Option Err)
    (hch : p.chunked = false) :
    ∀ (sc : List ProduceStep) (m : AMode) (sb : Bytes) (t : Nat),
      countIf Event.isFinalWr (asyncLoop p tr m sb sc t) = 0 := by
  have hF : ∀ u, countIf Event.isFinalWr (asyncTail p tr u) = 0 := by
    intro u
    rw [asyncTail_eq_syncFinish, syncFinish_finalCount, hch]
    simp
  intro sc
  induction sc with
  | nil => intro m sb t; cases m <;> simp [asyncLoop, Event.isFinalWr]
  | cons s sc ih =>
      intro m sb t
      cases m with
      | hb =>
          cases s with
          | fail e => simp [asyncLoop, Event.isFinalWr]
          | noEmit dn => simp [asyncLoop, Event.isFinalWr]
          | suspend => simp [asyncLoop, Event.isFinalWr, ih]
          | emit bs dn =>
              cases htr : tr t with
              | some e => simp [asyncLoop, htr, Event.isFinalWr]
              | none =>
                  cases dn <;> simp [asyncLoop, htr, Event.isFinalWr, hF, ih]
      | body =>
          cases s with
          | fail e => simp [asyncLoop, Event.isFinalWr]
          | noEmit dn => simp [asyncLoop, Event.isFinalWr]
          | suspend => simp [asyncLoop, Event.isFinalWr, ih]
          | emit bs dn =>
              cases htr : tr t with
              | some e => simp [asyncLoop, htr, Event.isFinalWr]
              | none =>
                  cases dn <;> simp [asyncLoop, htr, Event.isFinalWr, hF, ih]

/-- On a chunked message, the asynchronous state machine reports
successful completion only together with a final-chunk write. -/
lemma asyncLoop_finish_le (p : Prep) (tr : Nat → Option Err)
    (hch : p.chunked = true) :
    ∀ (sc : List ProduceStep) (m : AMode) (sb : Bytes) (t : Nat),
      countIf Event.isFinish (asyncLoop p tr m sb sc t)
        ≤ countIf Event.isFinalWr (asyncLoop p tr m sb sc t) := by
  have hF : ∀ u, countIf Event.isFinish (asyncTail p tr u)
      ≤ countIf Event.isFinalWr (asyncTail p tr u) := by
    intro u
    rw [asyncTail_eq_syncFinish]
    have h := (syncFinish_finishCount p tr u).2
    rw [hch] at h
    simpa using h
  intro sc
  induction sc with
  | nil =>
      intro m sb t
      cases m <;> simp [asyncLoop, Event.isFinish, Event.isFinalWr]
  | cons s sc ih =>
      intro m sb t
      cases m with
      | hb =>
          cases s with
          | fail e => simp [asyncLoop, Event.isFinish, Event.isFinalWr]
          | noEmit dn => simp [asyncLoop, Event.isFinish, Event.isFinalWr]
          | suspend =>
              simpa [asyncLoop, Event.isFinish, Event.isFinalWr] using
                ih .hb sb t
          | emit bs dn =>
              cases htr : tr t with
              | some e =>
                  simp [asyncLoop, htr, Event.isFinish, Event.isFinalWr]
              | none =>
                  cases dn
                  · simpa [asyncLoop, htr, Event.isFinish, Event.isFinalWr]
                      using ih .body [] (t + 1)
                  · simpa [asyncLoop, htr, Event.isFinish, Event.isFinalWr]
                      using hF (t + 1)
      | body =>
          cases s with
          | fail e => simp [asyncLoop, Event.isFinish, Event.isFinalWr]
          | noEmit dn => simp [asyncLoop, Event.isFinish, Event.isFinalWr]
          | suspend =>
              simpa [asyncLoop, Event.isFinish, Event.isFinalWr] using
                ih .body [] t
          | emit bs dn =>
              cases htr : tr t with
              | some e =>
                  simp [asyncLoop, htr, Event.isFinish, Event.isFinalWr]
              | none =>
                  cases dn
                  · simpa [asyncLoop, htr, Event.isFinish, Event.isFinalWr]
                      using ih .body [] (t + 1)
                  · simpa [asyncLoop, htr, Event.isFinish, Event.isFinalWr]
                      using hF (t + 1)

/-- A complete synchronous write is error-well-formed. -/
lemma syncRun_errWf (p : Prep) (ini : Option Err) (sc : List ProduceStep)
    (tr : Nat → Option Err) : errWf (syncRun p ini sc tr) = true := by
  cases ini with
  | some e => simp [syncRun, errWf_cons_some]
  | none =>
      simpa [syncRun, errWf_cons_none] using
        (syncLoop_wf p tr sc .outer p.header 0).1

/-- A complete asynchronous write is error-well-formed. -/
lemma asyncRun_errWf (p : Prep) (ini : Option Err) (sc : List ProduceStep)
    (tr : Nat → Option Err) : errWf (asyncRun p ini sc tr) = true := by
  cases ini with
  | some e => simp [asyncRun, errWf_cons_some]
  | none =>
      simpa [asyncRun, errWf_cons_none] using
        asyncLoop_errWf p tr sc .hb p.header 0

/-- A log containing the completion marker has a positive completion
count. -/
lemma finish_count_pos {log : List Event} (hm : Event.finishE ∈ log) :
    1 ≤ countIf Event.isFinish log := by
  have h : Event.finishE ∈ log.filter Event.isFinish :=
    List.mem_filter.mpr ⟨hm, rfl⟩
  have := List.ne_nil_of_mem h
  have := List.length_pos.mpr this
  simpa [countIf] using this

/-- C3 evidence: when the Body Writer needs more than one produce call,
the synchronous engine's outer loop issues one further produce call after
the Body Writer has already reported Done (the inner loop's `break` at
write.ipp 344-345 only exits the inner loop, and the outer loop then
calls `wp.w` again at line 302), while the asynchronous engine never
calls produce after Done. -/
theorem c3_produce_after_done :
    prodsAfterDone (syncRun ⟨"H".data, false, false, 0⟩ none
        [.emit "a".data false, .emit "b".data true] trOk) = 1
  ∧ prodsAfterDone (asyncRun ⟨"H".data, false, false, 0⟩ none
        [.emit "a".data false, .emit "b".data true] trOk) = 0 := by
  decide

/-- C6: an init error is surfaced with zero transport writes; after any
body-source or transport error the engine performs no further transport
writes and invokes the completion exactly once with that error unchanged;
on a contract-respecting Body Writer each engine invokes the completion
exactly once — in both engines. -/
theorem c6_error_handling (p : Prep) (ini : Option Err)
    (sc : List ProduceStep) (tr : Nat → Option Err) (e : Err)
    (hw : WScript sc) :
    trace (syncRun p (some e) sc tr) = []
  ∧ trace (asyncRun p (some e) sc tr) = []
  ∧ handlerEcs (syncRun p (some e) sc tr) = [some e]
  ∧ handlerEcs (asyncRun p (some e) sc tr) = [some e]
  ∧ errClean (syncRun p ini sc tr) = true
  ∧ errClean (asyncRun p ini sc tr) = true
  ∧ countIf Event.isHandler (syncRun p ini sc tr) = 1
  ∧ countIf Event.isHandler (asyncRun p ini sc tr) = 1 := by
  refine ⟨rfl, rfl, rfl, rfl,
    errClean_of_errWf (syncRun_errWf p ini sc tr),
    errClean_of_errWf (asyncRun_errWf p ini sc tr), ?_, ?_⟩
  · cases ini with
    | some e' => simp [syncRun, Event.isHandler]
    | none =>
        simpa [syncRun, Event.isHandler] using
          (syncLoop_wf p tr sc .outer p.header 0).2
  · cases ini with
    | some e' => simp [asyncRun, Event.isHandler]
    | none =>
        simpa [asyncRun, Event.isHandler] using
          asyncLoop_handler1 p tr hw .hb p.header 0

/-- C6 witness: a Body Writer failing on its second produce call, and an
init failure, on a concrete message. -/
theorem c6_error_handling_witness :
    handlerEcs (syncRun ⟨"H".data, true, false, 0⟩ (some (Err.code 5))
        [.emit "a".data false, .fail (Err.code 7)] trOk)
      = [some (Err.code 5)]
  ∧ errClean (syncRun ⟨"H".data, true, false, 0⟩ none
        [.emit "a".data false, .fail (Err.code 7)] trOk) = true
  ∧ countIf Event.isHandler (asyncRun ⟨"H".data, true, false, 0⟩ none
        [.emit "a".data false, .fail (Err.code 7)] trOk) = 1 := by
  have h := c6_error_handling ⟨"H".data, true, false, 0⟩ none
    [.emit "a".data false, .fail (Err.code 7)] trOk (Err.code 5)
    (WScript.more _ (WScript.failing _))
  exact ⟨h.2.2.1, h.2.2.2.2.1, h.2.2.2.2.2.2.2⟩

/-- C8: every suspension of the asynchronous engine is immediately
followed by the matching resume-token re-entry — no transport write is
issued between a Suspended produce result and the token invocation — and
the engine is re-entered once per suspension via the resume token, so a
Body Writer that suspends N times causes at least N re-entries. -/
theorem c8_suspension (p : Prep) (ini : Option Err) (sc : List ProduceStep)
    (tr : Nat → Option Err) :
    suspAdjacent (asyncRun p ini sc tr) = true
  ∧ countIf Event.isResume (asyncRun p ini sc tr)
      = countIf Event.isSusp (asyncRun p ini sc tr) := by
  cases ini with
  | some e => simp [asyncRun, Event.isResume, Event.isSusp]
  | none =>
      have h := asyncLoop_susp p tr sc .hb p.header 0
      constructor
      · simpa [asyncRun] using h.1
      · simpa [asyncRun, Event.isResume, Event.isSusp] using h.2

/-- C9: the final chunk bytes are written by a dedicated step at most
once in any run and exactly once in a chunked run that reports
completion — including when the Body Writer's final slice is empty —
always after the Body Writer reported Done and never followed by another
produce call; a content-length message never gets a final-chunk write —
in both engines. -/
theorem c9_final_chunk (p : Prep) (ini : Option Err)
    (sc : List ProduceStep) (tr : Nat → Option Err) :
    (p.chunked = false →
        countIf Event.isFinalWr (syncRun p ini sc tr) = 0
      ∧ countIf Event.isFinalWr (asyncRun p ini sc tr) = 0)
  ∧ countIf Event.isFinalWr (syncRun p ini sc tr) ≤ 1
  ∧ countIf Event.isFinalWr (asyncRun p ini sc tr) ≤ 1
  ∧ (p.chunked = true → Event.finishE ∈ syncRun p ini sc tr →
      countIf Event.isFinalWr (syncRun p ini sc tr) = 1)
  ∧ (p.chunked = true → Event.finishE ∈ asyncRun p ini sc tr →
      countIf Event.isFinalWr (asyncRun p ini sc tr) = 1)
  ∧ donePrecedesFinal (syncRun p ini sc tr) = true
  ∧ donePrecedesFinal (asyncRun p ini sc tr) = true
  ∧ prodsAfterFinal (syncRun p ini sc tr) = 0
  ∧ prodsAfterFinal (asyncRun p ini sc tr) = 0 := by
  cases ini with
  | some e =>
      refine ⟨fun _ => ⟨rfl, rfl⟩, ?_, ?_, ?_, ?_, rfl, rfl, rfl, rfl⟩
      · simp [syncRun, Event.isFinalWr]
      · simp [asyncRun, Event.isFinalWr]
      · intro _ hm; simp [syncRun] at hm
      · intro _ hm; simp [asyncRun] at hm
  | none =>
      have hs := syncLoop_final p tr sc .outer p.header 0
      have ha := asyncLoop_final p tr sc .hb p.header 0
      refine ⟨?_, ?_, ?_, ?_, ?_, ?_, ?_, ?_, ?_⟩
      · intro hch
        constructor
        · simpa [syncRun, Event.isFinalWr] using
            syncLoop_final_cl p tr hch sc .outer p.header 0
        · simpa [asyncRun, Event.isFinalWr] using
            asyncLoop_final_cl p tr hch sc .hb p.header 0
      · simpa [syncRun, Event.isFinalWr] using hs.1
      · simpa [asyncRun, Event.isFinalWr] using ha.1
      · intro hch hm
        simp only [syncRun, List.mem_cons, reduceCtorEq, false_or] at hm
        have hle := syncLoop_finish_le p tr hch sc .outer p.header 0
        have hpos := finish_count_pos hm
        have hA := hs.1
        simp [syncRun, Event.isFinalWr, Event.isFinish] at hle hpos hA ⊢
        omega
      · intro hch hm
        simp only [asyncRun, List.mem_cons, reduceCtorEq, false_or] at hm
        have hle := asyncLoop_finish_le p tr hch sc .hb p.header 0
        have hpos := finish_count_pos hm
        have hA := ha.1
        simp [asyncRun, Event.isFinalWr, Event.isFinish] at hle hpos hA ⊢
        omega
      · simpa [syncRun] using hs.2.1
      · simpa [asyncRun] using ha.2.1
      · simpa [syncRun] using hs.2.2
      · simpa [asyncRun] using ha.2.2

/-- C9 witness: a Body Writer that suspends once and completes with an
empty final slice still gets exactly one dedicated final-chunk write in a
chunked run, and none in a content-length run. -/
theorem c9_final_chunk_witness :
    countIf Event.isFinalWr (syncRun ⟨"H".data, true, false, 0⟩ none
        [.suspend, .emit [] true] trOk) = 1
  ∧ countIf Event.isFinalWr (asyncRun ⟨"H".data, false, false, 0⟩ none
        [.suspend, .emit [] true] trOk) = 0 := by
  constructor
  · exact (c9_final_chunk ⟨"H".data, true, false, 0⟩ none
      [.suspend, .emit [] true] trOk).2.2.2.1 rfl (by decide)
  · exact ((c9_final_chunk ⟨"H".data, false, false, 0⟩ none
      [.suspend, .emit [] true] trOk).1 rfl).2

/-- C10: in both engines, a body-source, init or transport error is
surfaced to the caller exactly as reported and is never overwritten by
the close-after end-of-stream sentinel: the single handler invocation
carries the first error of the run. -/
theorem c10_error_not_overwritten (p : Prep) (ini : Option Err)
    (sc : List ProduceStep) (tr : Nat → Option Err) :
    (∀ e, firstErr (syncRun p ini sc tr) = some e →
        handlerEcs (syncRun p ini sc tr) = [some e])
  ∧ (∀ e, firstErr (asyncRun p ini sc tr) = some e →
        handlerEcs (asyncRun p ini sc tr) = [some e]) :=
  ⟨fun _ he => handlerEcs_of_errWf (syncRun_errWf p ini sc tr) he,
   fun _ he => handlerEcs_of_errWf (asyncRun_errWf p ini sc tr) he⟩

/-- C10 witness: a close-after message whose Body Writer fails delivers
the body error, not the end-of-stream sentinel, in both engines. -/
theorem c10_error_not_overwritten_witness :
    handlerEcs (syncRun ⟨"H".data, true, true, 0⟩ none
        [.fail (Err.code 7)] trOk) = [some (Err.code 7)]
  ∧ handlerEcs (asyncRun ⟨"H".data, true, true, 0⟩ none
        [.fail (Err.code 7)] trOk) = [some (Err.code 7)] :=
  ⟨(c10_error_not_overwritten ⟨"H".data, true, true, 0⟩ none
      [.fail (Err.code 7)] trOk).1 (Err.code 7) (by decide),
   (c10_error_not_overwritten ⟨"H".data, true, true, 0⟩ none
      [.fail (Err.code 7)] trOk).2 (Err.code 7) (by decide)⟩

end BeastHttpWrite
